import Mathlib

/-!
Verification of the atomheart chess board layer.

This file gives a shallow embedding, in Lean 4, of the parts of the
atomheart repository that the specification talks about:

* `src/atomheart/board/board_modification.py` — the bitboard diff engine
  (`compute_modifications`, `BoardModification`, `PieceInSquare`);
* `src/atomheart/board/iboard.py` — `compute_key`, `BoardKey` and the reduced
  key `BoardKeyWithoutCounters`, `IBoard.get_move_key_from_uci`;
* `src/atomheart/board/rusty_board.py` — `RustyBoardChi`
  (`is_game_over`, `result`, `copy`, `play_move`, `play_move_key`) and
  `LegalMoveKeyGeneratorRust` (`get_uci_from_move_key`, `get_all`,
  `more_than_one`, `copy`, `copy_with_reset`);
* `src/atomheart/board/valanga_adapter.py` — `ChessDynamics.step` and
  `_over_event_from_board`.

Python bitboards are unbounded non-negative integers, embedded as `Nat`.
Python's `x & ~y` on non-negative integers is bitwise and-not, embedded with
`Nat.bitwise`.  Python sets become `Finset`, `collections.Counter` becomes
`Multiset` (an entry with count n is an element with multiplicity n).

The mutable Python objects (the `RustyBoardChi` instance, its
`rep_to_count` counter, its move stack, the wrapped rust `MyChess` object
and the legal move generator) are modelled with an explicit object store:
each object lives in a typed heap inside `Store` and is designated by its
index.  Allocation appends to a heap; in-place mutation is `List.set`.
The opaque `shakmaty_python_binding` backend (external to the repository)
is a record of functions `ShakmatyOps` over an arbitrary backend state
type `χ`; `MyMove` objects are represented by their UCI string, which is
the only observable the embedded code uses.

Python exceptions (`IndexError`, `ValueError` from `max([])`, failed
`assert`, missing attribute, `BoardInvariantError`) are embedded as the
error side of `Except PyErr`.
-/

namespace Atomheart

/-! ## Bit-level helpers -/

/-- Python `x & ~y` on non-negative integers: bit `i` is set iff it is set
in `x` and not in `y`.  Used for the `removals` bitboard in
`compute_modifications`. -/
def andNot (x y : Nat) : Nat := Nat.bitwise (fun a b => a && !b) x y

/-- Python `~x & y` on non-negative integers: bit `i` is set iff it is not
set in `x` and is set in `y`.  Used for the `appearance` bitboard in
`compute_modifications`. -/
def notAnd (x y : Nat) : Nat := Nat.bitwise (fun a b => !a && b) x y

/-- Embedding of python-chess `scan_forward`: the list of indices of the set
bits of a bitboard, in increasing order. -/
def scanForward (bb : Nat) : List Nat :=
  if h : bb = 0 then []
  else
    (if bb % 2 = 1 then [0] else []) ++ (scanForward (bb / 2)).map (· + 1)
termination_by bb
decreasing_by exact Nat.div_lt_self (Nat.pos_of_ne_zero h) (by omega)

/-- python-chess piece type constant. -/
def PAWN : Nat := 1

/-- python-chess piece type constant. -/
def KNIGHT : Nat := 2

/-- python-chess piece type constant. -/
def BISHOP : Nat := 3

/-- python-chess piece type constant. -/
def ROOK : Nat := 4

/-- python-chess piece type constant. -/
def QUEEN : Nat := 5

/-- python-chess piece type constant. -/
def KING : Nat := 6

/-- python-chess color constant: `chess.WHITE = True`. -/
def WHITE : Bool := true

/-- python-chess color constant: `chess.BLACK = False`. -/
def BLACK : Bool := false

/-- `PieceInSquare`: an immutable value `(square, piece, color)`; equality and
hashing are by value, so it is embedded as a structure with decidable
equality. -/
structure PieceInSquare where
  square : Nat
  piece : Nat
  color : Bool
deriving DecidableEq, Repr, Inhabited

/-- `BoardModification`: two Python sets of `PieceInSquare`, embedded as
finsets. -/
structure BoardModification where
  removals_ : Finset PieceInSquare
  appearances_ : Finset PieceInSquare
deriving DecidableEq, Inhabited

/-- `BoardModification.add_removal`: `self.removals_.add(removal)`. -/
def BoardModification.add_removal (bm : BoardModification) (removal : PieceInSquare) :
    BoardModification :=
  { bm with removals_ := insert removal bm.removals_ }

/-- `BoardModification.add_appearance`: `self.appearances_.add(appearance)`. -/
def BoardModification.add_appearance (bm : BoardModification) (appearance : PieceInSquare) :
    BoardModification :=
  { bm with appearances_ := insert appearance bm.appearances_ }

/-- The body of the two inner loops of `compute_modifications` for one
piece-type/color combination: compute the `removals` bitboard
`(previous_piece & previous_color) & ~(new_piece & new_color)` and add a
removal for every set bit, then the `appearance` bitboard
`~(previous_piece & previous_color) & (new_piece & new_color)` and add an
appearance for every set bit.  The source's `if removals:` / `if appearance:`
guards only skip empty loops, which folding over the empty list already
does. -/
def applyCombo (bm : BoardModification)
    (previous_bitboard_piece new_bitboard_piece previous_bitboard_color new_bitboard_color : Nat)
    (piece_type : Nat) (color : Bool) : BoardModification :=
  let removals : Nat :=
    andNot (previous_bitboard_piece &&& previous_bitboard_color)
      (new_bitboard_piece &&& new_bitboard_color)
  let bm1 := (scanForward removals).foldl
    (fun b square => b.add_removal ⟨square, piece_type, color⟩) bm
  let appearance : Nat :=
    notAnd (previous_bitboard_piece &&& previous_bitboard_color)
      (new_bitboard_piece &&& new_bitboard_color)
  (scanForward appearance).foldl
    (fun b square => b.add_appearance ⟨square, piece_type, color⟩) bm1

/-- `compute_modifications` from `board_modification.py`, with the source's
sixteen positional bitboard arguments, its `hop` list of piece-type rows and
`hip` list of color rows, and the same nested iteration order. -/
def compute_modifications
    (previous_pawns previous_kings previous_queens previous_rooks
      previous_bishops previous_knights previous_occupied_white previous_occupied_black
      new_pawns new_kings new_queens new_rooks
      new_bishops new_knights new_occupied_white new_occupied_black : Nat) :
    BoardModification :=
  let hop : List (Nat × Nat × Nat) :=
    [(previous_pawns, new_pawns, PAWN),
     (previous_bishops, new_bishops, BISHOP),
     (previous_rooks, new_rooks, ROOK),
     (previous_knights, new_knights, KNIGHT),
     (previous_queens, new_queens, QUEEN),
     (previous_kings, new_kings, KING)]
  let hip : List (Nat × Nat × Bool) :=
    [(previous_occupied_white, new_occupied_white, WHITE),
     (previous_occupied_black, new_occupied_black, BLACK)]
  hop.foldl
    (fun bm pieceRow =>
      hip.foldl
        (fun bm2 colorRow =>
          applyCombo bm2 pieceRow.1 pieceRow.2.1 colorRow.1 colorRow.2.1
            pieceRow.2.2 colorRow.2.2)
        bm)
    ⟨∅, ∅⟩

/-- A before/after snapshot: the six piece-type bitboards and the two
color-occupancy bitboards that `compute_modifications` receives for one side
of the diff. -/
structure BoardSnapshot where
  pawns : Nat
  kings : Nat
  queens : Nat
  rooks : Nat
  bishops : Nat
  knights : Nat
  occupied_white : Nat
  occupied_black : Nat
deriving DecidableEq, Inhabited

/-- `compute_modifications` applied to two snapshots, in the source's
argument order. -/
def computeModificationsOn (prev new : BoardSnapshot) : BoardModification :=
  compute_modifications
    prev.pawns prev.kings prev.queens prev.rooks
    prev.bishops prev.knights prev.occupied_white prev.occupied_black
    new.pawns new.kings new.queens new.rooks
    new.bishops new.knights new.occupied_white new.occupied_black

/-- The bitboard of a snapshot for a given python-chess piece-type code
(`PAWN = 1` … `KING = 6`); any other code has no bitboard and maps to `0`. -/
def BoardSnapshot.pieceBB (s : BoardSnapshot) : Nat → Nat
  | 1 => s.pawns
  | 2 => s.knights
  | 3 => s.bishops
  | 4 => s.rooks
  | 5 => s.queens
  | 6 => s.kings
  | _ => 0

/-- The color-occupancy bitboard of a snapshot (`chess.WHITE = true`). -/
def BoardSnapshot.colorBB (s : BoardSnapshot) (c : Bool) : Nat :=
  if c then s.occupied_white else s.occupied_black

/-- The six python-chess piece-type codes iterated by
`compute_modifications`. -/
def pieceTypeList : List Nat := [PAWN, KNIGHT, BISHOP, ROOK, QUEEN, KING]


/-- `BoardKey`: the ordered 14-tuple identifier of a position, embedded as a
structure whose fields are listed in the tuple's order. -/
structure BoardKey where
  pawns : Nat
  knights : Nat
  bishops : Nat
  rooks : Nat
  queens : Nat
  kings : Nat
  turn : Bool
  castling_rights : Nat
  ep_square : Option Nat
  white : Nat
  black : Nat
  promoted : Nat
  fullmove_number : Nat
  halfmove_clock : Nat
deriving DecidableEq, Repr, Inhabited

/-- `BoardKeyWithoutCounters`: the same tuple with the trailing
`(fullmove_number, halfmove_clock)` removed. -/
structure BoardKeyWithoutCounters where
  pawns : Nat
  knights : Nat
  bishops : Nat
  rooks : Nat
  queens : Nat
  kings : Nat
  turn : Bool
  castling_rights : Nat
  ep_square : Option Nat
  white : Nat
  black : Nat
  promoted : Nat
deriving DecidableEq, Repr, Inhabited

/-- `compute_key` from `iboard.py`: the tuple of the fourteen board fields in
the source's order. -/
def compute_key (pawns knights bishops rooks queens kings : Nat) (turn : Bool)
    (castling_rights : Nat) (ep_square : Option Nat) (white black promoted : Nat)
    (fullmove_number halfmove_clock : Nat) : BoardKey :=
  ⟨pawns, knights, bishops, rooks, queens, kings, turn, castling_rights, ep_square,
    white, black, promoted, fullmove_number, halfmove_clock⟩

/-- `IBoard.fast_representation_without_counters`: the Python slice
`fast_representation_[:-2]`, i.e. the first twelve components of the key
tuple. -/
def BoardKey.withoutCounters (k : BoardKey) : BoardKeyWithoutCounters :=
  ⟨k.pawns, k.knights, k.bishops, k.rooks, k.queens, k.kings, k.turn,
    k.castling_rights, k.ep_square, k.white, k.black, k.promoted⟩

/-- The Python exceptions the embedded code can raise: list `IndexError`,
`ValueError` (from `max` of an empty sequence), a failed `assert`, a missing
attribute, and the repository's `BoardInvariantError`. -/
inductive PyErr where
  | indexError
  | valueError
  | assertError
  | attributeError
  | boardInvariantError
deriving DecidableEq, Repr

/-- `assert x is not None` followed by a use of `x`. -/
def pyAssertSome : Option α → Except PyErr α
  | some v => Except.ok v
  | none => Except.error PyErr.assertError

/-- Reading a Python attribute that may never have been assigned
(raises `AttributeError` when unset). -/
def pyAttr : Option α → Except PyErr α
  | some v => Except.ok v
  | none => Except.error PyErr.attributeError

/-- Python list indexing `l[i]`: negative indices count from the end;
anything out of range raises `IndexError`. -/
def pyListGet (l : List α) (i : Int) : Except PyErr α :=
  let j : Int := if i < 0 then i + l.length else i
  if _h1 : 0 ≤ j then
    if h2 : j.toNat < l.length then Except.ok (l.get ⟨j.toNat, h2⟩)
    else Except.error PyErr.indexError
  else Except.error PyErr.indexError

/-- The twelve position fields returned by the rust binding's
`play_and_return_o` / `play_and_return_modifications`, in the order the
source unpacks them. -/
structure PlayFields where
  castling_rights : Nat
  pawns : Nat
  knights : Nat
  bishops : Nat
  rooks : Nat
  queens : Nat
  kings : Nat
  white : Nat
  black : Nat
  turn_int : Nat
  ep_square_int : Int
  promoted : Nat
deriving DecidableEq, Repr, Inhabited

/-- `BoardModificationRust`: removal and appearance sets stored as raw
`(square, piece, color)` integer triples coming from the rust binding. -/
structure BoardModificationRust where
  removals_ : Finset (Nat × Nat × Nat)
  appearances_ : Finset (Nat × Nat × Nat)
deriving DecidableEq, Inhabited

/-- The observable behaviour of the external `shakmaty_python_binding.MyChess`
object, over an arbitrary backend state type `χ`.  The binding is outside
this repository, so it enters the model as this record of functions; `MyMove`
arguments and results are represented by their UCI strings. -/
structure ShakmatyOps (χ : Type) where
  fen : χ → String
  is_game_over : χ → Bool
  result : χ → String
  legal_moves : χ → List String
  fullmove_number : χ → Nat
  halfmove_clock : χ → Nat
  ply : χ → Nat
  copy : χ → χ
  play_and_return_o : χ → String → χ × PlayFields
  play_and_return_modifications :
    χ → String → χ × PlayFields × Finset (Nat × Nat × Nat) × Finset (Nat × Nat × Nat)

/-- A trivial concrete backend over `Unit`, used to instantiate theorems at
concrete inputs. -/
def demoOps : ShakmatyOps Unit where
  fen := fun _ => "demo-fen"
  is_game_over := fun _ => false
  result := fun _ => "*"
  legal_moves := fun _ => ["e2e4"]
  fullmove_number := fun _ => 1
  halfmove_clock := fun _ => 0
  ply := fun _ => 0
  copy := id
  play_and_return_o := fun c _ => (c, default)
  play_and_return_modifications := fun c _ => (c, default, ∅, ∅)

/-! ## LegalMoveKeyGeneratorRust (`src/atomheart/board/rusty_board.py`) -/

/-- Python `sorted(range(number_moves), key=lambda i: moves[i].uci())`:
a stable sort of the keys by the UCI string of the move they index.  The key
function is modelled totally with `getD`, matching the source on every index
it is actually called with. -/
def sortKeysByUci (moves : List String) (keys : List Nat) : List Nat :=
  keys.mergeSort (fun i j => decide (moves.getD i "" ≤ moves.getD j ""))

/-- The mutable state of a `LegalMoveKeyGeneratorRust` object.
`chessRef` is the store index of the `MyChess` object the generator is bound
to.  `number_moves` is `none` while the attribute has never been assigned
(the `generated_moves=None` branch of `__init__` does not set it).  The
iterator state `it` of the Python object is not modelled; no embedded
operation uses it. -/
structure LegalMoveKeyGeneratorRust where
  sort_legal_moves : Bool
  chessRef : Nat
  generated_moves : Option (List String)
  number_moves : Option Nat
  all_generated_keys_ : Option (List Nat)
deriving DecidableEq, Repr, Inhabited

/-- `LegalMoveKeyGeneratorRust.__init__`. -/
def LegalMoveKeyGeneratorRust.init (sort_legal_moves : Bool) (chessRef : Nat)
    (generated_moves : Option (List String)) : LegalMoveKeyGeneratorRust :=
  match generated_moves with
  | some moves =>
      { sort_legal_moves := sort_legal_moves, chessRef := chessRef,
        generated_moves := some moves,
        number_moves := some moves.length,
        all_generated_keys_ :=
          some (if sort_legal_moves then sortKeysByUci moves (List.range moves.length)
            else List.range moves.length) }
  | none =>
      { sort_legal_moves := sort_legal_moves, chessRef := chessRef,
        generated_moves := none, number_moves := none, all_generated_keys_ := none }

/-- `get_uci_from_move_key`: assert the moves were generated, then Python-index
into them; the move's `uci()` is the list element itself. -/
def LegalMoveKeyGeneratorRust.get_uci_from_move_key (g : LegalMoveKeyGeneratorRust)
    (move_key : Int) : Except PyErr String := do
  let generated_moves ← pyAssertSome g.generated_moves
  pyListGet generated_moves move_key

/-- `copy_with_reset`: a fresh generator bound to the same `MyChess` object
with `generated_moves=None`. -/
def LegalMoveKeyGeneratorRust.copy_with_reset (g : LegalMoveKeyGeneratorRust) :
    LegalMoveKeyGeneratorRust :=
  LegalMoveKeyGeneratorRust.init g.sort_legal_moves g.chessRef none

/-- `LegalMoveKeyGeneratorRust.copy`, with
`copied_chess_rust_binding = some r` rebinding the copy to the `MyChess`
object at store index `r`.  The source copies the move list and, when
present, the cached key list. -/
def LegalMoveKeyGeneratorRust.copy (g : LegalMoveKeyGeneratorRust)
    (copied_chess_rust_binding : Option Nat) : LegalMoveKeyGeneratorRust :=
  let copied_chess_rust_binding_ :=
    match copied_chess_rust_binding with
    | none => g.chessRef
    | some r => r
  let legal_move_copy :=
    LegalMoveKeyGeneratorRust.init g.sort_legal_moves copied_chess_rust_binding_
      g.generated_moves
  match g.all_generated_keys_ with
  | some keys => { legal_move_copy with all_generated_keys_ := some keys }
  | none => legal_move_copy

/-- `get_all`: (re)generate the move list if absent, then return the cached
key list or `range(number_moves)` (sorted by UCI when requested).  Returns
the possibly-mutated generator together with the key sequence. -/
def LegalMoveKeyGeneratorRust.get_all {χ : Type} (ops : ShakmatyOps χ) (chess : χ)
    (g : LegalMoveKeyGeneratorRust) :
    Except PyErr (LegalMoveKeyGeneratorRust × List Nat) := do
  let g :=
    match g.generated_moves with
    | none =>
        { g with generated_moves := some (ops.legal_moves chess),
                 number_moves := some (ops.legal_moves chess).length,
                 all_generated_keys_ := none }
    | some _ => g
  match g.all_generated_keys_ with
  | none =>
      let number_moves ← pyAttr g.number_moves
      if g.sort_legal_moves then
        let moves ← pyAssertSome g.generated_moves
        Except.ok (g, sortKeysByUci moves (List.range number_moves))
      else Except.ok (g, List.range number_moves)
  | some keys => Except.ok (g, keys)

/-- `more_than_one`: despite its name, the source returns
`len(self.generated_moves) > 0`, generating the moves first if absent. -/
def LegalMoveKeyGeneratorRust.more_than_one {χ : Type} (ops : ShakmatyOps χ) (chess : χ)
    (g : LegalMoveKeyGeneratorRust) : LegalMoveKeyGeneratorRust × Bool :=
  match g.generated_moves with
  | none =>
      let lm := ops.legal_moves chess
      ({ g with
          generated_moves := some lm,
          number_moves := some lm.length,
          all_generated_keys_ := none },
        decide (0 < lm.length))
  | some generated_moves => (g, decide (0 < generated_moves.length))

/-- The `for i in range(number_moves)` loop of `IBoard.get_move_key_from_uci`:
return the first key whose UCI matches, else raise `BoardInvariantError`. -/
def findKeyLoop (g : LegalMoveKeyGeneratorRust) (move_uci : String) :
    List Nat → Except PyErr Int
  | [] => Except.error PyErr.boardInvariantError
  | i :: rest => do
      let u ← g.get_uci_from_move_key (i : Int)
      if u = move_uci then Except.ok (i : Int) else findKeyLoop g move_uci rest

/-- `IBoard.get_move_key_from_uci`: scan `range(len(get_all()))` for a key
whose UCI equals `move_uci`; raise `BoardInvariantError` when none matches. -/
def IBoard.get_move_key_from_uci {χ : Type} (ops : ShakmatyOps χ) (chess : χ)
    (g : LegalMoveKeyGeneratorRust) (move_uci : String) : Except PyErr Int := do
  let r ← g.get_all ops chess
  findKeyLoop r.1 move_uci (List.range r.2.length)

/-- The attribute state of a `RustyBoardChi` instance, in the dataclass's
field order.  `chessRef`, `repRef`, `legalRef` and `stackRef` are the store
indices of the wrapped `MyChess` object, the `rep_to_count` counter, the
legal-move generator and the `move_stack` list.  `is_game_over_attr` models
the dynamically assigned `is_game_over_` attribute probed with `hasattr`;
no code in the repository ever assigns it, so it is `none` for every board
the repository builds. -/
structure RustyBoardChi where
  chessRef : Nat
  compute_board_modification : Bool
  repRef : Nat
  fast_representation_ : BoardKey
  pawns_ : Nat
  kings_ : Nat
  queens_ : Nat
  rooks_ : Nat
  bishops_ : Nat
  knights_ : Nat
  white_ : Nat
  black_ : Nat
  turn_ : Bool
  ep_square_ : Option Nat
  promoted_ : Nat
  castling_rights_ : Nat
  legalRef : Nat
  stackRef : Nat
  is_game_over_attr : Option Bool
deriving DecidableEq, Inhabited

/-- The typed heaps holding the mutable objects; an object reference is an
index into its heap.  Allocation appends, in-place mutation is `List.set`. -/
structure Store (χ : Type) where
  chessH : List χ
  counterH : List (Multiset BoardKeyWithoutCounters)
  stackH : List (List String)
  genH : List LegalMoveKeyGeneratorRust
  boardH : List RustyBoardChi

def Store.setChess (s : Store χ) (i : Nat) (v : χ) : Store χ :=
  { s with chessH := s.chessH.set i v }

def Store.setCounter (s : Store χ) (i : Nat) (v : Multiset BoardKeyWithoutCounters) :
    Store χ :=
  { s with counterH := s.counterH.set i v }

def Store.setStack (s : Store χ) (i : Nat) (v : List String) : Store χ :=
  { s with stackH := s.stackH.set i v }

def Store.setGen (s : Store χ) (i : Nat) (v : LegalMoveKeyGeneratorRust) : Store χ :=
  { s with genH := s.genH.set i v }

def Store.setBoard (s : Store χ) (i : Nat) (v : RustyBoardChi) : Store χ :=
  { s with boardH := s.boardH.set i v }

def Store.allocChess (s : Store χ) (v : χ) : Store χ × Nat :=
  ({ s with chessH := s.chessH ++ [v] }, s.chessH.length)

def Store.allocCounter (s : Store χ) (v : Multiset BoardKeyWithoutCounters) :
    Store χ × Nat :=
  ({ s with counterH := s.counterH ++ [v] }, s.counterH.length)

def Store.allocStack (s : Store χ) (v : List String) : Store χ × Nat :=
  ({ s with stackH := s.stackH ++ [v] }, s.stackH.length)

def Store.allocGen (s : Store χ) (v : LegalMoveKeyGeneratorRust) : Store χ × Nat :=
  ({ s with genH := s.genH ++ [v] }, s.genH.length)

def Store.allocBoard (s : Store χ) (v : RustyBoardChi) : Store χ × Nat :=
  ({ s with boardH := s.boardH ++ [v] }, s.boardH.length)

/-- Python `counter[key] = 1` on a `Counter` viewed as a multiset: the
multiplicity of `key` becomes one, every other multiplicity is unchanged. -/
def counterSetOne (m : Multiset BoardKeyWithoutCounters) (k : BoardKeyWithoutCounters) :
    Multiset BoardKeyWithoutCounters :=
  Multiset.filter (fun x => x ≠ k) m + {k}

/-- Python `max(counter.values())`: raises `ValueError` on an empty counter,
otherwise returns the largest multiplicity. -/
def pyMaxValues (m : Multiset BoardKeyWithoutCounters) : Except PyErr Nat :=
  if m = 0 then Except.error PyErr.valueError
  else Except.ok (m.toFinset.sup (fun k => m.count k))

/-! ## RustyBoardChi operations (`src/atomheart/board/rusty_board.py`) -/

/-- The attribute updates shared by `play_min_2` and `play_min_3`: unpack the
twelve values returned by the binding into the cached fields, with
`turn_ = bool(turn_int)` and `ep_square_ = None` exactly when the binding
returned `-1`. -/
def RustyBoardChi.applyPlayFields (b : RustyBoardChi) (pf : PlayFields) : RustyBoardChi :=
  { b with
      castling_rights_ := pf.castling_rights,
      pawns_ := pf.pawns,
      knights_ := pf.knights,
      bishops_ := pf.bishops,
      rooks_ := pf.rooks,
      queens_ := pf.queens,
      kings_ := pf.kings,
      white_ := pf.white,
      black_ := pf.black,
      turn_ := decide (pf.turn_int ≠ 0),
      ep_square_ := if pf.ep_square_int = -1 then none else some pf.ep_square_int.toNat,
      promoted_ := pf.promoted }

/-- `RustyBoardChi.play_move`: call the binding (with or without
modification tracking), sync the cached fields, replace the legal-move
generator by `copy_with_reset`, recompute and cache the key, bump the
repetition counter at the new reduced key, and append the move's UCI to the
move stack.  Returns the updated store and the optional modifications. -/
def RustyBoardChi.play_move [Inhabited χ] (ops : ShakmatyOps χ) (s : Store χ)
    (bref : Nat) (move : String) : Store χ × Option BoardModificationRust :=
  let b := s.boardH.getD bref default
  let chess := s.chessH.getD b.chessRef default
  let r : χ × PlayFields × Option BoardModificationRust :=
    if b.compute_board_modification then
      let pr := ops.play_and_return_modifications chess move
      (pr.1, pr.2.1, some ⟨pr.2.2.2, pr.2.2.1⟩)
    else
      let pr := ops.play_and_return_o chess move
      (pr.1, pr.2, none)
  let s1 := s.setChess b.chessRef r.1
  let b1 := b.applyPlayFields r.2.1
  let s2g := s1.allocGen (s1.genH.getD b1.legalRef default).copy_with_reset
  let fast_representation : BoardKey :=
    compute_key b1.pawns_ b1.knights_ b1.bishops_ b1.rooks_ b1.queens_ b1.kings_
      b1.turn_ b1.castling_rights_ b1.ep_square_ b1.white_ b1.black_ b1.promoted_
      (ops.fullmove_number r.1) (ops.halfmove_clock r.1)
  let b2 := { b1 with legalRef := s2g.2, fast_representation_ := fast_representation }
  let s3 := s2g.1.setCounter b2.repRef
    (s2g.1.counterH.getD b2.repRef default + {fast_representation.withoutCounters})
  let s4 := s3.setStack b2.stackRef (s3.stackH.getD b2.stackRef default ++ [move])
  let s5 := s4.setBoard bref b2
  (s5, r.2.2)

/-- `RustyBoardChi.play_move_key`: assert the legal moves were generated,
Python-index them with the move key, then play the selected move. -/
def RustyBoardChi.play_move_key [Inhabited χ] (ops : ShakmatyOps χ) (s : Store χ)
    (bref : Nat) (move : Int) : Except PyErr (Store χ × Option BoardModificationRust) := do
  let b := s.boardH.getD bref default
  let generated ← pyAssertSome (s.genH.getD b.legalRef default).generated_moves
  let my_move ← pyListGet generated move
  Except.ok (RustyBoardChi.play_move ops s bref my_move)

/-- `RustyBoardChi.is_game_over`: three-fold repetition (gated by
`len(move_stack) >= 5`) or the backend's own game-over answer; the
`hasattr`-probed `is_game_over_` attribute overrides the backend call when
it was ever assigned. -/
def RustyBoardChi.is_game_over [Inhabited χ] (ops : ShakmatyOps χ) (s : Store χ)
    (bref : Nat) : Except PyErr Bool := do
  let b := s.boardH.getD bref default
  let claim_draw : Bool := decide (5 ≤ (s.stackH.getD b.stackRef default).length)
  let three_fold : Bool ←
    if claim_draw then
      Except.map (fun v => decide (2 < v)) (pyMaxValues (s.counterH.getD b.repRef default))
    else Except.ok false
  let chess_game_over : Bool :=
    match b.is_game_over_attr with
    | some attr_value => attr_value
    | none => ops.is_game_over (s.chessH.getD b.chessRef default)
  Except.ok (three_fold || chess_game_over)

/-- `RustyBoardChi.result`: three-fold repetition (gated by
`len(move_stack) >= 5 and claim_draw`) short-circuits to `"1/2-1/2"`,
otherwise the backend's `result()` is returned. -/
def RustyBoardChi.result [Inhabited χ] (ops : ShakmatyOps χ) (s : Store χ)
    (bref : Nat) (claim_draw : Bool) : Except PyErr String := do
  let b := s.boardH.getD bref default
  let claim_draw_ : Bool :=
    decide (5 ≤ (s.stackH.getD b.stackRef default).length) && claim_draw
  let three_fold : Bool ←
    if claim_draw_ then
      Except.map (fun v => decide (2 < v)) (pyMaxValues (s.counterH.getD b.repRef default))
    else Except.ok false
  if three_fold then Except.ok "1/2-1/2"
  else Except.ok (ops.result (s.chessH.getD b.chessRef default))

/-- `RustyBoardChi.termination`: the rust binding has no termination
classification, so the method always returns `None`. -/
def RustyBoardChi.terminationQuery : Option Unit := none

/-- `RustyBoardChi.copy`: copy the `MyChess` object, copy or empty the move
stack, deep-copy or rebind the legal-move generator, copy the repetition
counter, and build the new dataclass instance — whose `__post_init__` then
sets the copied counter's entry for the current reduced key to one.
Returns the updated store and the new board's reference. -/
def RustyBoardChi.copy [Inhabited χ] (ops : ShakmatyOps χ) (s : Store χ) (bref : Nat)
    (stack : Bool) (deep_copy_legal_moves : Bool) : Store χ × Nat :=
  let b := s.boardH.getD bref default
  let a1 := s.allocChess (ops.copy (s.chessH.getD b.chessRef default))
  let move_stack_ := if stack then a1.1.stackH.getD b.stackRef default else []
  let a2 := a1.1.allocStack move_stack_
  let a3 :=
    if deep_copy_legal_moves then
      a2.1.allocGen ((a2.1.genH.getD b.legalRef default).copy (some a1.2))
    else
      (a2.1.setGen b.legalRef
        { a2.1.genH.getD b.legalRef default with chessRef := a1.2 }, b.legalRef)
  let a4 := a3.1.allocCounter (a3.1.counterH.getD b.repRef default)
  let a5 := a4.1.allocBoard
    { b with
        chessRef := a1.2,
        stackRef := a2.2,
        legalRef := a3.2,
        repRef := a4.2,
        is_game_over_attr := none }
  let s6 := a5.1.setCounter a4.2
    (counterSetOne (a5.1.counterH.getD a4.2 default) b.fast_representation_.withoutCounters)
  (s6, a5.2)

/-! ## The valanga adapter (`src/atomheart/board/valanga_adapter.py`) -/

/-- `ChessState`: the pure observation wrapper; it holds the reference of its
board. -/
structure ChessState where
  board : Nat
deriving DecidableEq, Inhabited

/-- `valanga.over_event.HowOver`. -/
inductive HowOver where
  | win
  | draw
  | do_not_know_over
deriving DecidableEq, Repr

/-- `valanga.over_event.Winner`. -/
inductive Winner where
  | white
  | black
  | no_known_winner
deriving DecidableEq, Repr

/-- `valanga.OverEvent` as built by `_over_event_from_board`. -/
structure OverEvent where
  how_over : HowOver
  who_is_winner : Winner
  over_tag : Option Unit
deriving DecidableEq, Repr

/-- `valanga.Transition` as built by `ChessDynamics.step`; the `info` dict's
two entries are the `info_result` and `info_termination` fields. -/
structure Transition where
  next_state : ChessState
  modifications : Option BoardModificationRust
  is_over : Bool
  over_event : Option OverEvent
  info_result : String
  info_termination : Option Unit
deriving DecidableEq

/-- `_over_event_from_board`, instrumented: the returned `Nat` counts the
calls of the board's termination query made while building the event
(always exactly one here). -/
def over_event_from_board [Inhabited χ] (ops : ShakmatyOps χ) (s : Store χ) (bref : Nat) :
    Except PyErr (OverEvent × Nat) := do
  let res ← RustyBoardChi.result ops s bref true
  let t := RustyBoardChi.terminationQuery
  if res = "1-0" then Except.ok (⟨HowOver.win, Winner.white, t⟩, 1)
  else if res = "0-1" then Except.ok (⟨HowOver.win, Winner.black, t⟩, 1)
  else if res = "1/2-1/2" then Except.ok (⟨HowOver.draw, Winner.no_known_winner, t⟩, 1)
  else Except.ok (⟨HowOver.do_not_know_over, Winner.no_known_winner, t⟩, 1)

/-- `ChessDynamics.step`, instrumented: the returned `Nat` counts every
invocation of the post-move board's termination query (inside the over
event and inside the `info` dict).  The board is copied with
`stack=False, deep_copy_legal_moves=True`, the move is played on the copy,
and the outcome is classified. -/
def ChessDynamics.step [Inhabited χ] (ops : ShakmatyOps χ) (s : Store χ)
    (state : ChessState) (action : Int) : Except PyErr (Store χ × Transition × Nat) := do
  let c := RustyBoardChi.copy ops s state.board false true
  let board2 := c.2
  let r ← RustyBoardChi.play_move_key ops c.1 board2 action
  let is_over ← RustyBoardChi.is_game_over ops r.1 board2
  let oe ←
    if is_over then
      Except.map (fun ec => ((some ec.1 : Option OverEvent), ec.2))
        (over_event_from_board ops r.1 board2)
    else Except.ok ((none : Option OverEvent), 0)
  let info_result ←
    if is_over then RustyBoardChi.result ops r.1 board2 true else Except.ok "*"
  let it : Option Unit × Nat :=
    if is_over then (RustyBoardChi.terminationQuery, 1) else (none, 0)
  Except.ok (r.1, ⟨⟨board2⟩, r.2, is_over, oe.1, info_result, it.1⟩, oe.2 + it.2)

/-! ## Store lemmas -/

/-- A concrete board key used by the demonstration store. -/
def demoKey : BoardKey := default

/-- A concrete board record: references index 0 of each heap. -/
def demoBoard : RustyBoardChi :=
  { chessRef := 0, compute_board_modification := false, repRef := 0,
    fast_representation_ := demoKey, pawns_ := 0, kings_ := 0, queens_ := 0,
    rooks_ := 0, bishops_ := 0, knights_ := 0, white_ := 0, black_ := 0,
    turn_ := true, ep_square_ := none, promoted_ := 0, castling_rights_ := 0,
    legalRef := 0, stackRef := 0, is_game_over_attr := none }

/-- A concrete legal-move generator holding one generated move. -/
def demoGen : LegalMoveKeyGeneratorRust := ⟨false, 0, some ["e2e4"], some 1, none⟩

/-- A concrete store holding one of each object. -/
def demoStore : Store Unit :=
  { chessH := [()], counterH := [{demoKey.withoutCounters}], stackH := [[]],
    genH := [demoGen], boardH := [demoBoard] }

/-- The concrete outcome of one `step` on the demonstration store. -/
def demoStep : Store Unit × Transition × Nat :=
  (ChessDynamics.step demoOps demoStore ⟨0⟩ 0).toOption.getD
    (demoStore, ⟨⟨0⟩, none, false, none, "*", none⟩, 0)

/-! ## Theorems -/

theorem testBit_andNot (x y i : Nat) :
    (andNot x y).testBit i = (x.testBit i && !(y.testBit i)) := by
  unfold andNot
  exact Nat.testBit_bitwise (by rfl) x y i

theorem testBit_notAnd (x y i : Nat) :
    (notAnd x y).testBit i = (!(x.testBit i) && y.testBit i) := by
  unfold notAnd
  exact Nat.testBit_bitwise (by rfl) x y i

theorem mem_scanForward (i bb : Nat) : i ∈ scanForward bb ↔ bb.testBit i = true := by
  induction bb using Nat.strong_induction_on generalizing i with
  | _ bb ih =>
    rw [scanForward]
    by_cases h : bb = 0
    · simp [h, Nat.zero_testBit]
    · simp only [h, dite_false, List.mem_append, List.mem_map]
      cases i with
      | zero =>
        rw [Nat.testBit_zero]
        by_cases hp : bb % 2 = 1 <;> simp [hp]
      | succ j =>
        rw [Nat.testBit_succ]
        have hlt : bb / 2 < bb := Nat.div_lt_self (Nat.pos_of_ne_zero h) (by omega)
        rw [← ih (bb / 2) hlt]
        by_cases hp : bb % 2 = 1 <;> simp [hp]

/-! ## PieceInSquare and BoardModification
(`src/atomheart/board/board_modification.py`) -/

theorem foldl_add_removal (l : List Nat) (pt : Nat) (c : Bool) (bm : BoardModification) :
    (l.foldl (fun b square => b.add_removal ⟨square, pt, c⟩) bm).removals_ =
      bm.removals_ ∪ (l.map (fun square => (⟨square, pt, c⟩ : PieceInSquare))).toFinset ∧
    (l.foldl (fun b square => b.add_removal ⟨square, pt, c⟩) bm).appearances_ =
      bm.appearances_ := by
  induction l generalizing bm with
  | nil => simp
  | cons x xs ih =>
    obtain ⟨h1, h2⟩ := ih (bm.add_removal ⟨x, pt, c⟩)
    refine ⟨?_, ?_⟩
    · rw [List.foldl_cons, h1]
      ext p
      simp [BoardModification.add_removal]
    · rw [List.foldl_cons, h2]
      rfl

theorem foldl_add_appearance (l : List Nat) (pt : Nat) (c : Bool) (bm : BoardModification) :
    (l.foldl (fun b square => b.add_appearance ⟨square, pt, c⟩) bm).appearances_ =
      bm.appearances_ ∪ (l.map (fun square => (⟨square, pt, c⟩ : PieceInSquare))).toFinset ∧
    (l.foldl (fun b square => b.add_appearance ⟨square, pt, c⟩) bm).removals_ =
      bm.removals_ := by
  induction l generalizing bm with
  | nil => simp
  | cons x xs ih =>
    obtain ⟨h1, h2⟩ := ih (bm.add_appearance ⟨x, pt, c⟩)
    refine ⟨?_, ?_⟩
    · rw [List.foldl_cons, h1]
      ext p
      simp [BoardModification.add_appearance]
    · rw [List.foldl_cons, h2]
      rfl

theorem applyCombo_removals (bm : BoardModification) (pp np pc nc pt : Nat) (c : Bool) :
    (applyCombo bm pp np pc nc pt c).removals_ =
      bm.removals_ ∪
        ((scanForward (andNot (pp &&& pc) (np &&& nc))).map
          (fun square => (⟨square, pt, c⟩ : PieceInSquare))).toFinset := by
  unfold applyCombo
  rw [(foldl_add_appearance _ _ _ _).2, (foldl_add_removal _ _ _ _).1]

theorem applyCombo_appearances (bm : BoardModification) (pp np pc nc pt : Nat) (c : Bool) :
    (applyCombo bm pp np pc nc pt c).appearances_ =
      bm.appearances_ ∪
        ((scanForward (notAnd (pp &&& pc) (np &&& nc))).map
          (fun square => (⟨square, pt, c⟩ : PieceInSquare))).toFinset := by
  unfold applyCombo
  rw [(foldl_add_appearance _ _ _ _).1, (foldl_add_removal _ _ _ _).2]

/-- Membership in the removal set of one combination's contribution. -/
theorem mem_combo_finset (bb pt : Nat) (c : Bool) (p : PieceInSquare) :
    p ∈ ((scanForward bb).map (fun square => (⟨square, pt, c⟩ : PieceInSquare))).toFinset ↔
      (bb.testBit p.square = true ∧ p.piece = pt ∧ p.color = c) := by
  obtain ⟨s, q, d⟩ := p
  simp only [List.mem_toFinset, List.mem_map]
  constructor
  · rintro ⟨sq, hsq, heq⟩
    cases heq
    exact ⟨(mem_scanForward _ _).1 hsq, rfl, rfl⟩
  · rintro ⟨hbit, rfl, rfl⟩
    exact ⟨s, (mem_scanForward _ _).2 hbit, rfl⟩

@[simp] theorem pieceBB_one (s : BoardSnapshot) : s.pieceBB 1 = s.pawns := rfl

@[simp] theorem pieceBB_two (s : BoardSnapshot) : s.pieceBB 2 = s.knights := rfl

@[simp] theorem pieceBB_three (s : BoardSnapshot) : s.pieceBB 3 = s.bishops := rfl

@[simp] theorem pieceBB_four (s : BoardSnapshot) : s.pieceBB 4 = s.rooks := rfl

@[simp] theorem pieceBB_five (s : BoardSnapshot) : s.pieceBB 5 = s.queens := rfl

@[simp] theorem pieceBB_six (s : BoardSnapshot) : s.pieceBB 6 = s.kings := rfl

@[simp] theorem colorBB_true (s : BoardSnapshot) : s.colorBB true = s.occupied_white := rfl

@[simp] theorem colorBB_false (s : BoardSnapshot) : s.colorBB false = s.occupied_black := rfl

/-- Membership characterization of both sets returned by
`compute_modifications`: a triple is a removal iff its square's bit is set in
`(beforePiece & beforeColor) & ~(afterPiece & afterColor)` for its own
piece-type/color combination, and an appearance iff its bit is set in
`~(beforePiece & beforeColor) & (afterPiece & afterColor)`, over the twelve
combinations. -/
theorem mem_computeModificationsOn (prev new : BoardSnapshot) (p : PieceInSquare) :
    (p ∈ (computeModificationsOn prev new).removals_ ↔
      p.piece ∈ pieceTypeList ∧
      (andNot (prev.pieceBB p.piece &&& prev.colorBB p.color)
          (new.pieceBB p.piece &&& new.colorBB p.color)).testBit p.square = true) ∧
    (p ∈ (computeModificationsOn prev new).appearances_ ↔
      p.piece ∈ pieceTypeList ∧
      (notAnd (prev.pieceBB p.piece &&& prev.colorBB p.color)
          (new.pieceBB p.piece &&& new.colorBB p.color)).testBit p.square = true) := by
  obtain ⟨s, q, d⟩ := p
  unfold computeModificationsOn compute_modifications
  simp only [List.foldl_cons, List.foldl_nil]
  simp only [applyCombo_removals, applyCombo_appearances]
  simp only [Finset.mem_union, Finset.not_mem_empty, false_or, mem_combo_finset, or_assoc]
  simp only [pieceTypeList, PAWN, KNIGHT, BISHOP, ROOK, QUEEN, KING, WHITE, BLACK,
    List.mem_cons, List.not_mem_nil, or_false]
  refine ⟨⟨?_, ?_⟩, ⟨?_, ?_⟩⟩
  · rintro (⟨h, rfl, rfl⟩ | ⟨h, rfl, rfl⟩ | ⟨h, rfl, rfl⟩ | ⟨h, rfl, rfl⟩ | ⟨h, rfl, rfl⟩ |
      ⟨h, rfl, rfl⟩ | ⟨h, rfl, rfl⟩ | ⟨h, rfl, rfl⟩ | ⟨h, rfl, rfl⟩ | ⟨h, rfl, rfl⟩ |
      ⟨h, rfl, rfl⟩ | ⟨h, rfl, rfl⟩) <;> simp_all
  · rintro ⟨hq, hbit⟩
    rcases hq with rfl | rfl | rfl | rfl | rfl | rfl <;> cases d <;> simp_all
  · rintro (⟨h, rfl, rfl⟩ | ⟨h, rfl, rfl⟩ | ⟨h, rfl, rfl⟩ | ⟨h, rfl, rfl⟩ | ⟨h, rfl, rfl⟩ |
      ⟨h, rfl, rfl⟩ | ⟨h, rfl, rfl⟩ | ⟨h, rfl, rfl⟩ | ⟨h, rfl, rfl⟩ | ⟨h, rfl, rfl⟩ |
      ⟨h, rfl, rfl⟩ | ⟨h, rfl, rfl⟩) <;> simp_all
  · rintro ⟨hq, hbit⟩
    rcases hq with rfl | rfl | rfl | rfl | rfl | rfl <;> cases d <;> simp_all

/-- Claim C1: for every pair of board snapshots, `compute_modifications`
returns a `BoardModification` whose removals are exactly the `PieceInSquare`
triples whose square bit is set in
`(beforePiece & beforeColor) & ~(afterPiece & afterColor)` for that
piece-type/color combination, and whose appearances are exactly the triples
whose bit is set in `~(beforePiece & beforeColor) & (afterPiece & afterColor)`,
over all 12 piece-type/color combinations.  Purity and determinism are
inherent: the embedding is a mathematical function of its sixteen bitboard
arguments. -/
theorem compute_modifications_exact (prev new : BoardSnapshot) (p : PieceInSquare) :
    (p ∈ (computeModificationsOn prev new).removals_ ↔
      p.piece ∈ pieceTypeList ∧
      (andNot (prev.pieceBB p.piece &&& prev.colorBB p.color)
          (new.pieceBB p.piece &&& new.colorBB p.color)).testBit p.square = true) ∧
    (p ∈ (computeModificationsOn prev new).appearances_ ↔
      p.piece ∈ pieceTypeList ∧
      (notAnd (prev.pieceBB p.piece &&& prev.colorBB p.color)
          (new.pieceBB p.piece &&& new.colorBB p.color)).testBit p.square = true) :=
  mem_computeModificationsOn prev new p

/-- Claim C5: for every input snapshot pair the removal and appearance sets of
`compute_modifications` are disjoint on the full `(square, pieceType, color)`
triple. -/
theorem compute_modifications_disjoint (prev new : BoardSnapshot) :
    (computeModificationsOn prev new).removals_ ∩
      (computeModificationsOn prev new).appearances_ = ∅ := by
  ext p
  simp only [Finset.mem_inter, Finset.not_mem_empty, iff_false]
  rintro ⟨h1, h2⟩
  have hr := (mem_computeModificationsOn prev new p).1.mp h1
  have ha := (mem_computeModificationsOn prev new p).2.mp h2
  rw [testBit_andNot] at hr
  rw [testBit_notAnd] at ha
  rcases hr with ⟨-, hb1⟩
  rcases ha with ⟨-, hb2⟩
  simp only [Bool.and_eq_true, Bool.not_eq_true'] at hb1 hb2
  simp [hb1.1] at hb2

/-! ## BoardKey and compute_key (`src/atomheart/board/iboard.py`) -/

/-- Claim C3: `compute_key` is a pure total function of the fourteen board
fields — equal inputs give equal keys —, the key is exactly the ordered tuple
of those fields, the reduced key drops exactly the trailing two counters, and
two positions differing only in the two counters have equal reduced keys. -/
theorem compute_key_spec (pawns knights bishops rooks queens kings : Nat) (turn : Bool)
    (castling_rights : Nat) (ep_square : Option Nat) (white black promoted : Nat)
    (fullmove_number halfmove_clock fullmove_number' halfmove_clock' : Nat) :
    compute_key pawns knights bishops rooks queens kings turn castling_rights ep_square
        white black promoted fullmove_number halfmove_clock =
      ⟨pawns, knights, bishops, rooks, queens, kings, turn, castling_rights, ep_square,
        white, black, promoted, fullmove_number, halfmove_clock⟩ ∧
    (compute_key pawns knights bishops rooks queens kings turn castling_rights ep_square
        white black promoted fullmove_number halfmove_clock).withoutCounters =
      ⟨pawns, knights, bishops, rooks, queens, kings, turn, castling_rights, ep_square,
        white, black, promoted⟩ ∧
    (compute_key pawns knights bishops rooks queens kings turn castling_rights ep_square
        white black promoted fullmove_number halfmove_clock).withoutCounters =
      (compute_key pawns knights bishops rooks queens kings turn castling_rights ep_square
        white black promoted fullmove_number' halfmove_clock').withoutCounters :=
  ⟨rfl, rfl, rfl⟩

/-! ## Python runtime errors -/

theorem pyListGet_nat (l : List α) (i : Nat) (h : i < l.length) :
    pyListGet l (i : Int) = Except.ok (l.get ⟨i, h⟩) := by
  unfold pyListGet
  have h0 : ¬((i : Int) < 0) := by omega
  simp only [h0, if_false]
  rw [dif_pos (by omega : (0 : Int) ≤ (i : Int))]
  rw [dif_pos (by omega : ((i : Int)).toNat < l.length)]
  rfl

theorem pyListGet_out_of_range (l : List α) (i : Int)
    (h : (l.length : Int) ≤ i ∨ i < -(l.length : Int)) :
    pyListGet l i = Except.error PyErr.indexError := by
  unfold pyListGet
  rcases h with h | h
  · have h0 : ¬(i < 0) := by omega
    simp only [h0, if_false]
    rw [dif_pos (by omega : (0 : Int) ≤ i)]
    rw [dif_neg (by omega : ¬(i.toNat < l.length))]
  · have h0 : i < 0 := by omega
    simp only [h0, if_true]
    rw [dif_neg (by omega : ¬((0 : Int) ≤ i + l.length))]

/-! ## The opaque shakmaty backend -/

theorem findKeyLoop_not_found (g : LegalMoveKeyGeneratorRust) (move_uci : String)
    (l : List String) (hg : g.generated_moves = some l) (hnot : move_uci ∉ l)
    (is : List Nat) (his : ∀ i ∈ is, i < l.length) :
    findKeyLoop g move_uci is = Except.error PyErr.boardInvariantError := by
  induction is with
  | nil => rfl
  | cons i rest ih =>
    have hi : i < l.length := his i (by simp)
    have hok : g.get_uci_from_move_key (i : Int) = Except.ok (l.get ⟨i, hi⟩) := by
      unfold LegalMoveKeyGeneratorRust.get_uci_from_move_key
      rw [hg]
      simpa [pyAssertSome] using pyListGet_nat l i hi
    have hne : l.get ⟨i, hi⟩ ≠ move_uci := fun he => hnot (he ▸ List.get_mem l i hi)
    unfold findKeyLoop
    rw [hok]
    simp only [Except.bind, Bind.bind, hne, if_false]
    exact ih (fun j hj => his j (List.mem_cons_of_mem i hj))

/-- Counterexample to claim C9 as stated: with exactly one legal move
(`["a2a3"]`), the move key `-1` lies outside `[0, legalMoveCount)`, yet
`get_uci_from_move_key` does not fail — Python's negative indexing makes it
return the notation `"a2a3"` of the last move. -/
theorem get_uci_negative_key_returns_notation :
    (LegalMoveKeyGeneratorRust.get_uci_from_move_key
        ⟨false, 0, some ["a2a3"], some 1, none⟩ (-1)) = Except.ok "a2a3" ∧
    ((-1 : Int) < 0 ∨ (1 : Int) ≤ (-1 : Int)) :=
  ⟨by rfl, Or.inl (by decide)⟩

/-- Claim C9 (amended): with the legal moves generated, requesting the
notation of a move key that is at least `legalMoveCount`, or below
`-legalMoveCount`, fails with the fatal `IndexError` and never returns a
notation string (keys in `[-legalMoveCount, -1]` are resolved by Python's
negative indexing instead); and resolving a UCI string that matches no legal
move via `get_move_key_from_uci` raises `BoardInvariantError` rather than
returning a key. -/
theorem move_key_errors {χ : Type} (ops : ShakmatyOps χ) (chess : χ)
    (g : LegalMoveKeyGeneratorRust) (l : List String)
    (hg : g.generated_moves = some l) (hn : g.number_moves = some l.length)
    (hk : g.all_generated_keys_ = none) :
    (∀ move_key : Int, ((l.length : Int) ≤ move_key ∨ move_key < -(l.length : Int)) →
      g.get_uci_from_move_key move_key = Except.error PyErr.indexError) ∧
    (∀ move_uci : String, move_uci ∉ l →
      IBoard.get_move_key_from_uci ops chess g move_uci =
        Except.error PyErr.boardInvariantError) := by
  constructor
  · intro move_key hout
    unfold LegalMoveKeyGeneratorRust.get_uci_from_move_key
    rw [hg]
    simpa [pyAssertSome] using pyListGet_out_of_range l move_key hout
  · intro move_uci hu
    obtain ⟨sort, cref, gm, nm, ak⟩ := g
    simp only at hg hn hk
    subst hg
    subst hn
    subst hk
    have hloop : ∀ n : Nat, n = l.length →
        findKeyLoop ⟨sort, cref, some l, some l.length, none⟩ move_uci (List.range n) =
          Except.error PyErr.boardInvariantError := by
      intro n hn2
      refine findKeyLoop_not_found _ move_uci l rfl hu (List.range n) ?_
      intro i hi
      rw [List.mem_range] at hi
      omega
    unfold IBoard.get_move_key_from_uci LegalMoveKeyGeneratorRust.get_all
    cases sort with
    | false =>
      simp only [pyAttr, Except.bind, Bind.bind, Bool.false_eq_true, if_false,
        List.length_range]
      exact hloop _ rfl
    | true =>
      simp only [pyAttr, pyAssertSome, Except.bind, Bind.bind, if_true,
        sortKeysByUci, List.length_mergeSort, List.length_range]
      exact hloop _ rfl

/-- Claim C10: `more_than_one()` on the native backend's legal-move generator
returns true exactly when the legal-move list has length greater than zero
(regenerating it from the backend when absent); in particular it returns
true for every position with exactly one legal move. -/
theorem more_than_one_spec {χ : Type} (ops : ShakmatyOps χ) (chess : χ)
    (g : LegalMoveKeyGeneratorRust) :
    (∀ l, g.generated_moves = some l →
      ((g.more_than_one ops chess).2 = true ↔ 0 < l.length)) ∧
    (g.generated_moves = none →
      ((g.more_than_one ops chess).2 = true ↔ 0 < (ops.legal_moves chess).length)) ∧
    (∀ l, g.generated_moves = some l → l.length = 1 →
      (g.more_than_one ops chess).2 = true) := by
  unfold LegalMoveKeyGeneratorRust.more_than_one
  refine ⟨?_, ?_, ?_⟩
  · intro l hl
    rw [hl]
    simp
  · intro hl
    rw [hl]
    simp
  · intro l hl h1
    rw [hl]
    simp [h1]

/-- Witness for `move_key_errors` at a concrete generator with one legal
move: key `5` is rejected with `IndexError`, and the unmatched UCI `"h7h8"`
raises `BoardInvariantError`. -/
theorem move_key_errors_witness :
    (LegalMoveKeyGeneratorRust.get_uci_from_move_key
        ⟨false, 0, some ["a2a3"], some 1, none⟩ 5 = Except.error PyErr.indexError) ∧
    (IBoard.get_move_key_from_uci demoOps () ⟨false, 0, some ["a2a3"], some 1, none⟩
        "h7h8" = Except.error PyErr.boardInvariantError) := by
  have h := move_key_errors demoOps () ⟨false, 0, some ["a2a3"], some 1, none⟩
    ["a2a3"] rfl rfl rfl
  exact ⟨h.1 5 (by decide), h.2 "h7h8" (by decide)⟩

/-- Witness for `more_than_one_spec` at a concrete generator holding exactly
one legal move. -/
theorem more_than_one_spec_witness :
    ((LegalMoveKeyGeneratorRust.more_than_one demoOps ()
        ⟨false, 0, some ["e2e4"], some 1, none⟩).2 = true) :=
  (more_than_one_spec demoOps () ⟨false, 0, some ["e2e4"], some 1, none⟩).2.2
    ["e2e4"] rfl rfl

/-! ## The object store for the mutable Python objects -/

theorem getD_append_len (l : List α) (x d : α) : (l ++ [x]).getD l.length d = x := by
  simp [List.getD_eq_getElem?_getD, List.getElem?_concat_length]

theorem set_append_len (l : List α) (x y : α) : (l ++ [x]).set l.length y = l ++ [y] := by
  induction l with
  | nil => rfl
  | cons a t ih =>
    show a :: ((t ++ [x]).set t.length y) = a :: (t ++ [y])
    rw [ih]

/-- `RustyBoardChi.copy` written out: one fresh `MyChess` copy, one fresh
(possibly emptied) move stack, a fresh or rebound generator, one fresh
counter — holding the original counts except that `__post_init__` resets the
current reduced key's count to one — and one fresh board record pointing at
all of them. -/
theorem copy_result [Inhabited χ] (ops : ShakmatyOps χ) (s : Store χ) (bref : Nat)
    (stackArg dcl : Bool) :
    RustyBoardChi.copy ops s bref stackArg dcl =
      ({ chessH := s.chessH ++
           [ops.copy (s.chessH.getD (s.boardH.getD bref default).chessRef default)],
         counterH := s.counterH ++
           [counterSetOne (s.counterH.getD (s.boardH.getD bref default).repRef default)
             (s.boardH.getD bref default).fast_representation_.withoutCounters],
         stackH := s.stackH ++
           [if stackArg then s.stackH.getD (s.boardH.getD bref default).stackRef default
            else []],
         genH :=
           if dcl then
             s.genH ++
               [(s.genH.getD (s.boardH.getD bref default).legalRef default).copy
                 (some s.chessH.length)]
           else
             s.genH.set (s.boardH.getD bref default).legalRef
               { s.genH.getD (s.boardH.getD bref default).legalRef default with
                   chessRef := s.chessH.length },
         boardH := s.boardH ++
           [{ s.boardH.getD bref default with
               chessRef := s.chessH.length,
               stackRef := s.stackH.length,
               legalRef :=
                 if dcl then s.genH.length else (s.boardH.getD bref default).legalRef,
               repRef := s.counterH.length,
               is_game_over_attr := none }] },
       s.boardH.length) := by
  cases dcl <;>
    simp [RustyBoardChi.copy, Store.allocChess, Store.allocStack, Store.allocGen,
      Store.allocCounter, Store.allocBoard, Store.setCounter, Store.setGen,
      getD_append_len, set_append_len]

/-- The largest multiplicity in a counter exceeds two iff some key has been
counted more than twice. -/
theorem counter_sup_iff (m : Multiset BoardKeyWithoutCounters) :
    (2 < m.toFinset.sup (fun k => m.count k)) ↔ ∃ k, 2 < m.count k := by
  rw [Finset.lt_sup_iff]
  constructor
  · rintro ⟨k, -, hk⟩
    exact ⟨k, hk⟩
  · rintro ⟨k, hk⟩
    exact ⟨k, Multiset.mem_toFinset.mpr (Multiset.count_pos.mp (by omega)), hk⟩

/-- A key counted more than twice is in particular a member of the counter,
so the bounded and unbounded existentials agree. -/
theorem exists_count_gt_two_iff (m : Multiset BoardKeyWithoutCounters) :
    (∃ k ∈ m, 2 < m.count k) ↔ ∃ k, 2 < m.count k := by
  constructor
  · rintro ⟨k, -, hk⟩
    exact ⟨k, hk⟩
  · rintro ⟨k, hk⟩
    exact ⟨k, Multiset.count_pos.mp (by omega), hk⟩

/-- Claim C2: `is_game_over` reports the game over exactly when the backend's
native rules report it over, or when the claim-draw gate holds — at least 5
plies in this lineage's move stack, the code's `claim_draw` flag — and some
reduced key has been counted more than twice in the lineage's repetition
counter.  In particular a lineage that holds a reduced key a third time
after at least 5 plies reports game over.  Hypotheses: the dynamically
assigned `is_game_over_` escape hatch is absent (no repository code ever
assigns it), and the repetition counter is non-empty (guaranteed by
`__post_init__`). -/
theorem is_game_over_spec [Inhabited χ] (ops : ShakmatyOps χ) (s : Store χ) (bref : Nat)
    (b : RustyBoardChi) (m : Multiset BoardKeyWithoutCounters) (st : List String) (chess : χ)
    (hb : s.boardH.getD bref default = b)
    (hm : s.counterH.getD b.repRef default = m)
    (hst : s.stackH.getD b.stackRef default = st)
    (hch : s.chessH.getD b.chessRef default = chess)
    (hattr : b.is_game_over_attr = none)
    (hne : m ≠ 0) :
    (RustyBoardChi.is_game_over ops s bref = Except.ok true ↔
      (ops.is_game_over chess = true ∨ (5 ≤ st.length ∧ ∃ k, 2 < m.count k))) ∧
    (∀ k, 3 ≤ m.count k → 5 ≤ st.length →
      RustyBoardChi.is_game_over ops s bref = Except.ok true) := by
  have hmax : pyMaxValues m = Except.ok (m.toFinset.sup (fun k => m.count k)) := by
    unfold pyMaxValues
    rw [if_neg hne]
  have main : RustyBoardChi.is_game_over ops s bref = Except.ok true ↔
      (ops.is_game_over chess = true ∨ (5 ≤ st.length ∧ ∃ k, 2 < m.count k)) := by
    unfold RustyBoardChi.is_game_over
    simp only [hb, hm, hst, hch, hattr]
    by_cases hlen : 5 ≤ st.length
    all_goals
      simp [hlen, hmax, Except.map, Except.bind, Bind.bind, counter_sup_iff,
        exists_count_gt_two_iff]
    all_goals tauto
  refine ⟨main, ?_⟩
  intro k hk hlen
  exact main.mpr (Or.inr ⟨hlen, k, by omega⟩)

/-- Claim C6: `result(claimDraw)` short-circuits to the draw string without
consulting the backend (the answer is `"1/2-1/2"` for every backend result
function) when claim-draw holds, at least 5 plies were played and some
reduced key recurred more than twice; otherwise it returns the backend's
result; and its value lies in the standard result set whenever the backend's
does.  Hypothesis: the repetition counter is non-empty. -/
theorem result_spec [Inhabited χ] (ops : ShakmatyOps χ) (s : Store χ) (bref : Nat)
    (claim_draw : Bool) (b : RustyBoardChi) (m : Multiset BoardKeyWithoutCounters)
    (st : List String) (chess : χ)
    (hb : s.boardH.getD bref default = b)
    (hm : s.counterH.getD b.repRef default = m)
    (hst : s.stackH.getD b.stackRef default = st)
    (hch : s.chessH.getD b.chessRef default = chess)
    (hne : m ≠ 0) :
    ((claim_draw = true ∧ 5 ≤ st.length ∧ ∃ k, 2 < m.count k) →
      ∀ f, RustyBoardChi.result { ops with result := f } s bref claim_draw =
        Except.ok "1/2-1/2") ∧
    (¬(claim_draw = true ∧ 5 ≤ st.length ∧ ∃ k, 2 < m.count k) →
      RustyBoardChi.result ops s bref claim_draw = Except.ok (ops.result chess)) ∧
    (ops.result chess ∈ ["1-0", "0-1", "1/2-1/2", "*"] →
      ∃ r, RustyBoardChi.result ops s bref claim_draw = Except.ok r ∧
        r ∈ ["1-0", "0-1", "1/2-1/2", "*"]) := by
  have hmax : pyMaxValues m = Except.ok (m.toFinset.sup (fun k => m.count k)) := by
    unfold pyMaxValues
    rw [if_neg hne]
  have part1 : (claim_draw = true ∧ 5 ≤ st.length ∧ ∃ k, 2 < m.count k) →
      ∀ f, RustyBoardChi.result { ops with result := f } s bref claim_draw =
        Except.ok "1/2-1/2" := by
    rintro ⟨hcd, hlen, k, hk⟩ f
    have hsup : 2 < m.toFinset.sup (fun k => m.count k) :=
      (counter_sup_iff _).mpr ⟨k, hk⟩
    have hexm : ∃ j ∈ m, 2 < m.count j := ⟨k, Multiset.count_pos.mp (by omega), hk⟩
    unfold RustyBoardChi.result
    simp only [hb, hm, hst, hch]
    simp [hcd, hlen, hmax, hsup, hexm, Except.map, Except.bind, Bind.bind]
  have part2 : ¬(claim_draw = true ∧ 5 ≤ st.length ∧ ∃ k, 2 < m.count k) →
      RustyBoardChi.result ops s bref claim_draw = Except.ok (ops.result chess) := by
    intro hnot
    unfold RustyBoardChi.result
    simp only [hb, hm, hst, hch]
    by_cases hcd : claim_draw = true
    · by_cases hlen : 5 ≤ st.length
      · have hnok : ¬∃ k, 2 < m.count k := fun hex => hnot ⟨hcd, hlen, hex⟩
        have hsup : ¬(2 < m.toFinset.sup (fun k => m.count k)) :=
          fun hs2 => hnok ((counter_sup_iff _).mp hs2)
        have hexm : ¬∃ j ∈ m, 2 < m.count j :=
          fun hex2 => hnok ((exists_count_gt_two_iff m).mp hex2)
        simp [hcd, hlen, hmax, hsup, hexm, Except.map, Except.bind, Bind.bind]
      · simp [hcd, hlen, Except.map, Except.bind, Bind.bind]
    · have hcd' : claim_draw = false := by
        cases claim_draw
        · rfl
        · exact absurd rfl hcd
      simp [hcd', Except.map, Except.bind, Bind.bind]
  refine ⟨part1, part2, ?_⟩
  intro hmem
  by_cases hcond : claim_draw = true ∧ 5 ≤ st.length ∧ ∃ k, 2 < m.count k
  · refine ⟨"1/2-1/2", ?_, by simp⟩
    have := part1 hcond ops.result
    simpa using this
  · exact ⟨ops.result chess, part2 hcond, hmem⟩

/-- Claim C7: `copy(stack=false)` yields an independent board — a fresh board
object — with an empty move-history stack, whose cached key (tag) and FEN
equal the original's, and whose repetition counter is a fresh object:
writing any contents through the copy's counter reference leaves the
original's counter untouched, whatever the `stack` and
`deep_copy_legal_moves` arguments were.  The FEN equality quantifies over
the backend's guarantee that copying a `MyChess` object preserves its FEN. -/
theorem copy_spec [Inhabited χ] (ops : ShakmatyOps χ) (s : Store χ) (bref : Nat)
    (stackArg dcl : Bool) (s' : Store χ) (bref' : Nat)
    (hcopy : RustyBoardChi.copy ops s bref stackArg dcl = (s', bref'))
    (hb : bref < s.boardH.length)
    (hrep : (s.boardH.getD bref default).repRef < s.counterH.length)
    (hfen : ∀ x, ops.fen (ops.copy x) = ops.fen x) :
    (stackArg = false →
      s'.stackH.getD (s'.boardH.getD bref' default).stackRef default = []) ∧
    (s'.boardH.getD bref' default).fast_representation_ =
      (s.boardH.getD bref default).fast_representation_ ∧
    ops.fen (s'.chessH.getD (s'.boardH.getD bref' default).chessRef default) =
      ops.fen (s.chessH.getD (s.boardH.getD bref default).chessRef default) ∧
    bref' ≠ bref ∧
    (s'.boardH.getD bref' default).repRef ≠ (s.boardH.getD bref default).repRef ∧
    s'.counterH[(s.boardH.getD bref default).repRef]? =
      s.counterH[(s.boardH.getD bref default).repRef]? ∧
    (∀ m : Multiset BoardKeyWithoutCounters,
      (s'.setCounter (s'.boardH.getD bref' default).repRef m).counterH[(s.boardH.getD
          bref default).repRef]? =
        s.counterH[(s.boardH.getD bref default).repRef]?) := by
  rw [copy_result] at hcopy
  rw [Prod.mk.injEq] at hcopy
  obtain ⟨hs', hbref'⟩ := hcopy
  subst hs'
  subst hbref'
  refine ⟨?_, ?_, ?_, ?_, ?_, ?_, ?_⟩
  · intro hfalse
    subst hfalse
    simp [getD_append_len]
  · simp [getD_append_len]
  · simp only [getD_append_len]
    exact hfen _
  · omega
  · simp only [getD_append_len]
    omega
  · exact List.getElem?_append_left hrep
  · intro m
    simp only [Store.setCounter, getD_append_len, set_append_len]
    exact List.getElem?_append_left hrep

/-- `play_move` only writes the played board's own objects: its `MyChess`
object, its repetition counter, its move stack, the board record itself, and
a freshly allocated generator; every other heap cell is untouched. -/
theorem play_move_frame [Inhabited χ] (ops : ShakmatyOps χ) (t : Store χ) (bref : Nat)
    (move : String) (i j k g m : Nat)
    (hic : i ≠ (t.boardH.getD bref default).chessRef)
    (hjr : j ≠ (t.boardH.getD bref default).repRef)
    (hks : k ≠ (t.boardH.getD bref default).stackRef)
    (hgl : g < t.genH.length)
    (hmb : m ≠ bref) :
    (RustyBoardChi.play_move ops t bref move).1.chessH[i]? = t.chessH[i]? ∧
    (RustyBoardChi.play_move ops t bref move).1.counterH[j]? = t.counterH[j]? ∧
    (RustyBoardChi.play_move ops t bref move).1.stackH[k]? = t.stackH[k]? ∧
    (RustyBoardChi.play_move ops t bref move).1.genH[g]? = t.genH[g]? ∧
    (RustyBoardChi.play_move ops t bref move).1.boardH[m]? = t.boardH[m]? := by
  cases hc : (t.boardH.getD bref default).compute_board_modification <;>
    refine ⟨?_, ?_, ?_, ?_, ?_⟩ <;>
      simp only [RustyBoardChi.play_move, RustyBoardChi.applyPlayFields, hc,
        Bool.false_eq_true, eq_self_iff_true, if_false, if_true, Store.setChess,
        Store.allocGen, Store.setCounter, Store.setStack, Store.setBoard] <;>
      first
        | exact List.getElem?_set_ne (Ne.symm hic)
        | exact List.getElem?_set_ne (Ne.symm hjr)
        | exact List.getElem?_set_ne (Ne.symm hks)
        | exact List.getElem?_set_ne (Ne.symm hmb)
        | exact List.getElem?_append_left hgl

/-- A successful `play_move_key` returns exactly a `play_move` on some
selected move. -/
theorem play_move_key_ok [Inhabited χ] (ops : ShakmatyOps χ) (s : Store χ) (bref : Nat)
    (mk : Int) (out : Store χ × Option BoardModificationRust)
    (h : RustyBoardChi.play_move_key ops s bref mk = Except.ok out) :
    ∃ mv, out = RustyBoardChi.play_move ops s bref mv := by
  simp only [RustyBoardChi.play_move_key] at h
  rcases hga : pyAssertSome
      ((s.genH.getD (s.boardH.getD bref default).legalRef default).generated_moves) with
    e | gen
  · rw [hga] at h
    simp [Except.bind, Bind.bind] at h
  · rw [hga] at h
    simp only [Except.bind, Bind.bind] at h
    rcases hgl : pyListGet gen mk with e2 | mv
    · rw [hgl] at h
      simp [Except.bind, Bind.bind] at h
    · rw [hgl] at h
      simp only [Except.bind, Bind.bind, Except.ok.injEq] at h
      exact ⟨mv, h.symm⟩

/-- The shape of every successful `ChessDynamics.step`: the result store is
the one produced by playing the selected move on the fresh copy, the
transition wraps the copy's reference, and when the position is not over the
over-event pair is `(none, 0)` — no termination query was made. -/
theorem step_ok_shape [Inhabited χ] (ops : ShakmatyOps χ) (s : Store χ) (state : ChessState)
    (action : Int) (s' : Store χ) (tr : Transition) (n : Nat)
    (hstep : ChessDynamics.step ops s state action = Except.ok (s', tr, n)) :
    ∃ (mv : String) (is_over : Bool) (oeP : Option OverEvent × Nat) (res : String),
      s' = (RustyBoardChi.play_move ops (RustyBoardChi.copy ops s state.board false true).1
              (RustyBoardChi.copy ops s state.board false true).2 mv).1 ∧
      tr = ⟨⟨(RustyBoardChi.copy ops s state.board false true).2⟩,
            (RustyBoardChi.play_move ops (RustyBoardChi.copy ops s state.board false true).1
              (RustyBoardChi.copy ops s state.board false true).2 mv).2,
            is_over, oeP.1, res, none⟩ ∧
      n = oeP.2 + (if is_over then 1 else 0) ∧
      (is_over = false → oeP = (none, 0)) := by
  simp only [ChessDynamics.step] at hstep
  rcases hpk : RustyBoardChi.play_move_key ops
      (RustyBoardChi.copy ops s state.board false true).1
      (RustyBoardChi.copy ops s state.board false true).2 action with e | out
  · rw [hpk] at hstep
    simp [Except.bind, Bind.bind] at hstep
  · rw [hpk] at hstep
    simp only [Except.bind, Bind.bind] at hstep
    obtain ⟨mv, hout⟩ := play_move_key_ok ops _ _ action out hpk
    rcases hgo : RustyBoardChi.is_game_over ops out.1
        (RustyBoardChi.copy ops s state.board false true).2 with e2 | is_over
    · rw [hgo] at hstep
      simp [Except.bind, Bind.bind] at hstep
    · rw [hgo] at hstep
      simp only [Except.bind, Bind.bind] at hstep
      cases is_over
      · simp only [Bool.false_eq_true, if_false, Except.bind, Bind.bind,
          Except.ok.injEq, Prod.mk.injEq] at hstep
        obtain ⟨h1, h2, h3⟩ := hstep
        refine ⟨mv, false, (none, 0), "*", ?_, ?_, ?_, ?_⟩
        · rw [← h1, hout]
        · rw [← h2, hout]
        · rw [← h3]
          rfl
        · intro
          rfl
      · rcases hoe : over_event_from_board ops out.1
            (RustyBoardChi.copy ops s state.board false true).2 with e3 | ec
        · rw [hoe] at hstep
          simp [Except.bind, Bind.bind, Except.map] at hstep
        · rw [hoe] at hstep
          simp only [Except.map, Except.bind, Bind.bind, eq_self_iff_true, if_true] at hstep
          rcases hres : RustyBoardChi.result ops out.1
              (RustyBoardChi.copy ops s state.board false true).2 true with e4 | rv
          · rw [hres] at hstep
            simp [Except.bind, Bind.bind] at hstep
          · rw [hres] at hstep
            simp only [Except.bind, Bind.bind, Except.ok.injEq, Prod.mk.injEq] at hstep
            obtain ⟨h1, h2, h3⟩ := hstep
            refine ⟨mv, true, (some ec.1, ec.2), rv, ?_, ?_, ?_, ?_⟩
            · rw [← h1, hout]
            · rw [← h2, hout]
              rfl
            · rw [← h3]
              rfl
            · intro hcontra
              cases hcontra

/-- Claim C4: in the adapter's `step`, the backend-specific
terminal-classification query is never invoked on the post-move board unless
`is_game_over` already returned true: on every transition whose `is_over` is
false the over event and the info termination entry are `None` and the
instrumented termination-call count is zero; a positive count implies the
transition was terminal. -/
theorem step_termination_gated [Inhabited χ] (ops : ShakmatyOps χ) (s : Store χ)
    (state : ChessState) (action : Int) (s' : Store χ) (tr : Transition) (n : Nat)
    (hstep : ChessDynamics.step ops s state action = Except.ok (s', tr, n)) :
    (tr.is_over = false → tr.over_event = none ∧ tr.info_termination = none ∧ n = 0) ∧
    (0 < n → tr.is_over = true) := by
  obtain ⟨mv, is_over, oeP, res, hs', htr, hn, hfalse⟩ :=
    step_ok_shape ops s state action s' tr n hstep
  subst htr
  cases is_over
  · have hoe := hfalse rfl
    subst hoe
    constructor
    · intro _
      refine ⟨rfl, rfl, ?_⟩
      rw [hn]
      rfl
    · intro hpos
      rw [hn] at hpos
      simp at hpos
  · constructor
    · intro hov
      simp at hov
    · intro _
      rfl

/-- Claim C8: `step(state, action)` never mutates the caller's state: the
original board record (bitboards, turn, counters, cached key), its `MyChess`
object, its repetition counter, its move stack and its legal-move generator
are all unchanged in the resulting store, and the returned `next_state`
wraps the freshly allocated copy, which is a different board object. -/
theorem step_does_not_mutate_caller [Inhabited χ] (ops : ShakmatyOps χ) (s : Store χ)
    (state : ChessState) (action : Int) (s' : Store χ) (tr : Transition) (n : Nat)
    (hstep : ChessDynamics.step ops s state action = Except.ok (s', tr, n))
    (hb : state.board < s.boardH.length)
    (hc : (s.boardH.getD state.board default).chessRef < s.chessH.length)
    (hr : (s.boardH.getD state.board default).repRef < s.counterH.length)
    (hst : (s.boardH.getD state.board default).stackRef < s.stackH.length)
    (hg : (s.boardH.getD state.board default).legalRef < s.genH.length) :
    s'.boardH[state.board]? = s.boardH[state.board]? ∧
    s'.chessH[(s.boardH.getD state.board default).chessRef]? =
      s.chessH[(s.boardH.getD state.board default).chessRef]? ∧
    s'.counterH[(s.boardH.getD state.board default).repRef]? =
      s.counterH[(s.boardH.getD state.board default).repRef]? ∧
    s'.stackH[(s.boardH.getD state.board default).stackRef]? =
      s.stackH[(s.boardH.getD state.board default).stackRef]? ∧
    s'.genH[(s.boardH.getD state.board default).legalRef]? =
      s.genH[(s.boardH.getD state.board default).legalRef]? ∧
    tr.next_state.board = s.boardH.length ∧
    tr.next_state.board ≠ state.board := by
  obtain ⟨mv, is_over, oeP, res, hs', htr, hn, hfalse⟩ :=
    step_ok_shape ops s state action s' tr n hstep
  subst hs'
  subst htr
  have hcr := copy_result ops s state.board false true
  have hC2 : (RustyBoardChi.copy ops s state.board false true).2 = s.boardH.length := by
    rw [hcr]
  have hrefs :
      ((RustyBoardChi.copy ops s state.board false true).1.boardH.getD
          (RustyBoardChi.copy ops s state.board false true).2 default).chessRef =
        s.chessH.length ∧
      ((RustyBoardChi.copy ops s state.board false true).1.boardH.getD
          (RustyBoardChi.copy ops s state.board false true).2 default).repRef =
        s.counterH.length ∧
      ((RustyBoardChi.copy ops s state.board false true).1.boardH.getD
          (RustyBoardChi.copy ops s state.board false true).2 default).stackRef =
        s.stackH.length := by
    rw [hcr]
    simp [getD_append_len]
  have hchess : (RustyBoardChi.copy ops s state.board false
        true).1.chessH[(s.boardH.getD state.board default).chessRef]? =
      s.chessH[(s.boardH.getD state.board default).chessRef]? := by
    rw [hcr]
    exact List.getElem?_append_left hc
  have hcnt : (RustyBoardChi.copy ops s state.board false
        true).1.counterH[(s.boardH.getD state.board default).repRef]? =
      s.counterH[(s.boardH.getD state.board default).repRef]? := by
    rw [hcr]
    exact List.getElem?_append_left hr
  have hstk : (RustyBoardChi.copy ops s state.board false
        true).1.stackH[(s.boardH.getD state.board default).stackRef]? =
      s.stackH[(s.boardH.getD state.board default).stackRef]? := by
    rw [hcr]
    exact List.getElem?_append_left hst
  have hgen : (RustyBoardChi.copy ops s state.board false
        true).1.genH[(s.boardH.getD state.board default).legalRef]? =
      s.genH[(s.boardH.getD state.board default).legalRef]? := by
    rw [hcr]
    simp only []
    exact List.getElem?_append_left hg
  have hbrd : (RustyBoardChi.copy ops s state.board false
        true).1.boardH[state.board]? = s.boardH[state.board]? := by
    rw [hcr]
    exact List.getElem?_append_left hb
  have hglen : (s.boardH.getD state.board default).legalRef <
      (RustyBoardChi.copy ops s state.board false true).1.genH.length := by
    rw [hcr]
    refine Nat.lt_of_lt_of_le hg ?_
    show s.genH.length ≤ (s.genH ++
      [(s.genH.getD (s.boardH.getD state.board default).legalRef default).copy
        (some s.chessH.length)]).length
    simp
  have hic : (s.boardH.getD state.board default).chessRef ≠
      ((RustyBoardChi.copy ops s state.board false true).1.boardH.getD
        (RustyBoardChi.copy ops s state.board false true).2 default).chessRef := by
    rw [hrefs.1]
    omega
  have hjr : (s.boardH.getD state.board default).repRef ≠
      ((RustyBoardChi.copy ops s state.board false true).1.boardH.getD
        (RustyBoardChi.copy ops s state.board false true).2 default).repRef := by
    rw [hrefs.2.1]
    omega
  have hks : (s.boardH.getD state.board default).stackRef ≠
      ((RustyBoardChi.copy ops s state.board false true).1.boardH.getD
        (RustyBoardChi.copy ops s state.board false true).2 default).stackRef := by
    rw [hrefs.2.2]
    omega
  have hmb : state.board ≠ (RustyBoardChi.copy ops s state.board false true).2 := by
    rw [hC2]
    omega
  obtain ⟨f1, f2, f3, f4, f5⟩ := play_move_frame ops
    (RustyBoardChi.copy ops s state.board false true).1
    (RustyBoardChi.copy ops s state.board false true).2 mv
    (s.boardH.getD state.board default).chessRef
    (s.boardH.getD state.board default).repRef
    (s.boardH.getD state.board default).stackRef
    (s.boardH.getD state.board default).legalRef
    state.board hic hjr hks hglen hmb
  refine ⟨?_, ?_, ?_, ?_, ?_, ?_, ?_⟩
  · rw [f5, hbrd]
  · rw [f1, hchess]
  · rw [f2, hcnt]
  · rw [f3, hstk]
  · rw [f4, hgen]
  · exact hC2
  · intro heq
    simp only [hC2] at heq
    omega

/-- Witness for `is_game_over_spec` at the demonstration store. -/
theorem is_game_over_spec_witness :
    (RustyBoardChi.is_game_over demoOps demoStore 0 = Except.ok true ↔
      (demoOps.is_game_over () = true ∨
        (5 ≤ ([] : List String).length ∧
          ∃ k, 2 < ({demoKey.withoutCounters} :
            Multiset BoardKeyWithoutCounters).count k))) ∧
    (∀ k, 3 ≤ ({demoKey.withoutCounters} : Multiset BoardKeyWithoutCounters).count k →
      5 ≤ ([] : List String).length →
      RustyBoardChi.is_game_over demoOps demoStore 0 = Except.ok true) :=
  is_game_over_spec demoOps demoStore 0 demoBoard {demoKey.withoutCounters} [] ()
    rfl rfl rfl rfl rfl (by decide)

/-- Witness for `result_spec` at the demonstration store. -/
theorem result_spec_witness :
    ((true = true ∧ 5 ≤ ([] : List String).length ∧
        ∃ k, 2 < ({demoKey.withoutCounters} :
          Multiset BoardKeyWithoutCounters).count k) →
      ∀ f, RustyBoardChi.result { demoOps with result := f } demoStore 0 true =
        Except.ok "1/2-1/2") ∧
    (¬(true = true ∧ 5 ≤ ([] : List String).length ∧
        ∃ k, 2 < ({demoKey.withoutCounters} :
          Multiset BoardKeyWithoutCounters).count k) →
      RustyBoardChi.result demoOps demoStore 0 true = Except.ok (demoOps.result ())) ∧
    (demoOps.result () ∈ ["1-0", "0-1", "1/2-1/2", "*"] →
      ∃ r, RustyBoardChi.result demoOps demoStore 0 true = Except.ok r ∧
        r ∈ ["1-0", "0-1", "1/2-1/2", "*"]) :=
  result_spec demoOps demoStore 0 true demoBoard {demoKey.withoutCounters} [] ()
    rfl rfl rfl rfl (by decide)

/-- Witness for `copy_spec`: the copy is a fresh board object whose counter
reference differs from the original's. -/
theorem copy_spec_witness :
    (RustyBoardChi.copy demoOps demoStore 0 false true).2 ≠ 0 ∧
    ((RustyBoardChi.copy demoOps demoStore 0 false true).1.boardH.getD
        (RustyBoardChi.copy demoOps demoStore 0 false true).2 default).repRef ≠
      (demoStore.boardH.getD 0 default).repRef := by
  have h := copy_spec demoOps demoStore 0 false true
    (RustyBoardChi.copy demoOps demoStore 0 false true).1
    (RustyBoardChi.copy demoOps demoStore 0 false true).2
    rfl (by decide) (by decide) (fun x => rfl)
  exact ⟨h.2.2.2.1, h.2.2.2.2.1⟩

/-- Witness for `step_termination_gated`: the demonstration step is not
terminal, so its over event and termination entry are absent and no
termination query was counted. -/
theorem step_termination_gated_witness :
    demoStep.2.1.over_event = none ∧ demoStep.2.1.info_termination = none ∧
      demoStep.2.2 = 0 :=
  (step_termination_gated demoOps demoStore ⟨0⟩ 0 demoStep.1 demoStep.2.1 demoStep.2.2
    rfl).1 (by rfl)

/-- Witness for `step_does_not_mutate_caller` at the demonstration store. -/
theorem step_does_not_mutate_caller_witness :
    demoStep.1.boardH[0]? = demoStore.boardH[0]? ∧
    demoStep.2.1.next_state.board ≠ 0 := by
  have h := step_does_not_mutate_caller demoOps demoStore ⟨0⟩ 0
    demoStep.1 demoStep.2.1 demoStep.2.2 rfl (by decide) (by decide) (by decide)
    (by decide) (by decide)
  exact ⟨h.1, h.2.2.2.2.2.2⟩
